import Mathlib

/-!
Verification of the `auid` crate: a 64-bit timestamp-first unique identifier
(`Uid(i64)`) with conversions to and from bytes, `i64`, and several text
encodings (base16, base32, base58, base64).

The `i64` machine integer is embedded as an `Int` together with its
two's-complement bit pattern (a `Nat` below `2 ^ 64`).  Byte buffers are
embedded as `List Nat` whose elements are below 256.
-/

/-- Two's-complement 64-bit pattern of an `i64` value (`v` as a `Nat` in
`[0, 2 ^ 64)`). -/
def toPattern (v : Int) : Nat := (v % (2 ^ 64 : Int)).toNat

/-- Signed value of a 64-bit two's-complement pattern. -/
def ofPattern (n : Nat) : Int := if n < 2 ^ 63 then (n : Int) else (n : Int) - 2 ^ 64

/-- Range of the `i64` type. -/
def inRangeI64 (v : Int) : Prop := -(2 ^ 63) ≤ v ∧ v < 2 ^ 63

/-- Left shift of an `i64` by `k` bits, dropping overflowing bits
(Rust semantics of `<<` for `k` below the bit width). -/
def i64Shl (v : Int) (k : Nat) : Int := ofPattern (toPattern v * 2 ^ k % 2 ^ 64)

/-- Bitwise or of two `i64` values (patternwise). -/
def i64Or (a b : Int) : Int := ofPattern (Nat.lor (toPattern a) (toPattern b))

/-- Big-endian value of a byte list (`i64::from_be_bytes` at pattern level). -/
def beBytesToNat : List Nat → Nat
  | [] => 0
  | b :: rest => b * 256 ^ rest.length + beBytesToNat rest

/-- Big-endian byte list of width `w` for a value `n` (`i64::to_be_bytes` at
pattern level keeps `w = 8`). -/
def natToBeBytes : Nat → Nat → List Nat
  | 0, _ => []
  | w + 1, n => natToBeBytes w (n / 256) ++ [n % 256]

/-- The identifier type: `pub struct Uid(i64)` from `src/lib.rs`. -/
structure Uid where
  val : Int
deriving DecidableEq

/-- The error type of the crate: `pub enum Error { Decoding(String) }`. -/
inductive Error where
  | Decoding (msg : String) : Error
deriving DecidableEq

/-- Embeds `Uid::new`: `Uid(timestamp << 24 | random_bytes)` where
`random_bytes` is `i64::from_be_bytes` of an 8-byte buffer whose last three
bytes are the random bytes `r0 r1 r2`.  The wall clock and the random source
are the two inputs of the embedding. -/
def Uid.new (ts : Int) (r0 r1 r2 : Nat) : Uid :=
  let timestamp := i64Shl ts 24
  let random_bytes := ofPattern (beBytesToNat [0, 0, 0, 0, 0, r0, r1, r2])
  ⟨i64Or timestamp random_bytes⟩

/-- Embeds `impl From<Uid> for i64`. -/
def Uid.toI64 (u : Uid) : Int := u.val

/-- Embeds `impl From<i64> for Uid`. -/
def Uid.ofI64 (v : Int) : Uid := ⟨v⟩

/-- Embeds `impl From<Uid> for [u8; 8]`: `value.0.to_be_bytes()`. -/
def Uid.toBeBytes (u : Uid) : List Nat := natToBeBytes 8 (toPattern u.val)

/-- Embeds `impl Default for Uid` (derived): the zero integer. -/
def Uid.defaultUid : Uid := ⟨0⟩

/-- Embeds `impl TryFrom<&[u8]> for Uid`: length check, then
`i64::from_be_bytes`. -/
def Uid.tryFrom (bs : List Nat) : Except Error Uid :=
  if bs.length ≠ 8 then
    .error (.Decoding ("expected len to be 8, but was " ++ toString bs.length))
  else
    .ok ⟨ofPattern (beBytesToNat bs)⟩

/-- Maps each character through a partial value table, failing on the first
unknown character. -/
def mapCharVals (f : Char → Option Nat) : List Char → Option (List Nat)
  | [] => some []
  | c :: rest =>
    match f c, mapCharVals f rest with
    | some v, some vs => some (v :: vs)
    | _, _ => none

/-- Lowercase hexadecimal alphabet. -/
def hexAlphabet : List Char := "0123456789abcdef".toList

/-- Character of one hexadecimal digit. -/
def hexDigitChar (n : Nat) : Char := hexAlphabet.getD n '0'

/-- Value of one hexadecimal digit character (either case accepted). -/
def hexCharVal (c : Char) : Option Nat :=
  let l := hexAlphabet.indexOf c
  if l < 16 then some l
  else
    let u := "0123456789ABCDEF".toList.indexOf c
    if u < 16 then some u else none

/-- Two lowercase hexadecimal characters of one byte. -/
def byteToHex (b : Nat) : List Char := [hexDigitChar (b / 16), hexDigitChar (b % 16)]

/-- Lowercase hexadecimal characters of a byte list. -/
def bytesToHex : List Nat → List Char
  | [] => []
  | b :: rest => byteToHex b ++ bytesToHex rest

/-- Decodes hexadecimal characters two at a time into bytes. -/
def hexDecodePairs : List Char → Option (List Nat)
  | [] => some []
  | c1 :: c2 :: rest =>
    match hexCharVal c1, hexCharVal c2, hexDecodePairs rest with
    | some h, some l, some t => some ((h * 16 + l) :: t)
    | _, _, _ => none
  | _ => none

/-- Modelled from the spec: `faster_hex::hex_decode(src, dst)` (the
`faster-hex` crate is not in `src/`).  Per the spec's codec table it fails
with a decoding error on non-hex characters or on a wrong decoded length,
so it succeeds exactly when `src` is `2 * dstLen` valid hex characters. -/
def hex_decode (cs : List Char) (dstLen : Nat) : Except String (List Nat) :=
  if cs.length ≠ 2 * dstLen then .error ("Invalid hex length")
  else
    match hexDecodePairs cs with
    | some bs => .ok bs
    | none => .error ("Invalid hex character")

/-- Embeds `Uid::to_base16`: `faster_hex::hex_string` of the big-endian
bytes, which is their lowercase hexadecimal string. -/
def Uid.to_base16 (u : Uid) : String := String.mk (bytesToHex u.toBeBytes)

/-- Embeds `Uid::to_hex`, an alias of `to_base16`. -/
def Uid.to_hex (u : Uid) : String := u.to_base16

/-- Embeds `Uid::from_base16`: hex-decode into a zeroed 8-byte buffer, then
`i64::from_be_bytes`. -/
def Uid.from_base16 (s : String) : Except Error Uid :=
  match hex_decode s.toList 8 with
  | .error e => .error (.Decoding e)
  | .ok bs => .ok ⟨ofPattern (beBytesToNat bs)⟩

/-- Embeds `Uid::from_hex`, an alias of `from_base16`. -/
def Uid.from_hex (s : String) : Except Error Uid := Uid.from_base16 s

/-- RFC 4648 base32 alphabet. -/
def b32Alphabet : List Char := "ABCDEFGHIJKLMNOPQRSTUVWXYZ234567".toList

/-- Character of one 5-bit base32 digit. -/
def b32Char (n : Nat) : Char := b32Alphabet.getD n 'A'

/-- Value of one base32 character. -/
def b32CharVal (c : Char) : Option Nat :=
  let i := b32Alphabet.indexOf c
  if i < 32 then some i else none

/-- Modelled from the spec: the encoding half of `data_encoding::BASE32`
(the `data-encoding` crate is not in `src/`), RFC 4648 without padding:
bytes are cut into 5-bit groups, most significant bits first, the last
group zero-padded. -/
def b32EncChars : List Nat → List Char
  | [] => []
  | [b0] => [b32Char (b0 / 8), b32Char (b0 % 8 * 4)]
  | [b0, b1] =>
    [b32Char (b0 / 8), b32Char (b0 % 8 * 4 + b1 / 64), b32Char (b1 / 2 % 32),
     b32Char (b1 % 2 * 16)]
  | [b0, b1, b2] =>
    [b32Char (b0 / 8), b32Char (b0 % 8 * 4 + b1 / 64), b32Char (b1 / 2 % 32),
     b32Char (b1 % 2 * 16 + b2 / 16), b32Char (b2 % 16 * 2)]
  | [b0, b1, b2, b3] =>
    [b32Char (b0 / 8), b32Char (b0 % 8 * 4 + b1 / 64), b32Char (b1 / 2 % 32),
     b32Char (b1 % 2 * 16 + b2 / 16), b32Char (b2 % 16 * 2 + b3 / 128),
     b32Char (b3 / 4 % 32), b32Char (b3 % 4 * 8)]
  | b0 :: b1 :: b2 :: b3 :: b4 :: rest =>
    [b32Char (b0 / 8), b32Char (b0 % 8 * 4 + b1 / 64), b32Char (b1 / 2 % 32),
     b32Char (b1 % 2 * 16 + b2 / 16), b32Char (b2 % 16 * 2 + b3 / 128),
     b32Char (b3 / 4 % 32), b32Char (b3 % 4 * 8 + b4 / 32), b32Char (b4 % 32)]
      ++ b32EncChars rest

/-- Number of base32 padding characters for a final partial group. -/
def b32PadLen (r : Nat) : Nat :=
  match r with
  | 1 => 6
  | 2 => 4
  | 3 => 3
  | 4 => 1
  | _ => 0

/-- Modelled from the spec: `data_encoding::BASE32.encode`, RFC 4648 with
padding to a multiple of 8 characters. -/
def b32EncodePad (bs : List Nat) : List Char :=
  b32EncChars bs ++ List.replicate (b32PadLen (bs.length % 5)) '='

/-- Decodes one group of 5-bit values back into bytes, rejecting group
sizes that RFC 4648 never produces and nonzero trailing bits. -/
def b32DecGroup : List Nat → Except String (List Nat)
  | [f0, f1] =>
    if f1 % 4 = 0 then .ok [f0 * 8 + f1 / 4] else .error ("trailing bits")
  | [f0, f1, f2, f3] =>
    if f3 % 16 = 0 then .ok [f0 * 8 + f1 / 4, f1 % 4 * 64 + f2 * 2 + f3 / 16]
    else .error ("trailing bits")
  | [f0, f1, f2, f3, f4] =>
    if f4 % 2 = 0 then
      .ok [f0 * 8 + f1 / 4, f1 % 4 * 64 + f2 * 2 + f3 / 16, f3 % 16 * 16 + f4 / 2]
    else .error ("trailing bits")
  | [f0, f1, f2, f3, f4, f5, f6] =>
    if f6 % 8 = 0 then
      .ok [f0 * 8 + f1 / 4, f1 % 4 * 64 + f2 * 2 + f3 / 16, f3 % 16 * 16 + f4 / 2,
           f4 % 2 * 128 + f5 * 4 + f6 / 8]
    else .error ("trailing bits")
  | [f0, f1, f2, f3, f4, f5, f6, f7] =>
    .ok [f0 * 8 + f1 / 4, f1 % 4 * 64 + f2 * 2 + f3 / 16, f3 % 16 * 16 + f4 / 2,
         f4 % 2 * 128 + f5 * 4 + f6 / 8, f6 % 8 * 32 + f7]
  | _ => .error ("invalid length")

/-- Modelled from the spec: `data_encoding::BASE32.decode`, RFC 4648 with
padding: the input is cut into 8-character blocks; `=` may occur only as
trailing padding of the last block. -/
def b32DecodePad : List Char → Except String (List Nat)
  | [] => .ok []
  | c0 :: c1 :: c2 :: c3 :: c4 :: c5 :: c6 :: c7 :: rest =>
    if '=' ∈ [c0, c1, c2, c3, c4, c5, c6, c7] then
      if rest ≠ [] then .error ("padding before the end")
      else if ([c0, c1, c2, c3, c4, c5, c6, c7].dropWhile (· != '=')).all (· == '=') then
        match mapCharVals b32CharVal ([c0, c1, c2, c3, c4, c5, c6, c7].takeWhile (· != '=')) with
        | some fs => b32DecGroup fs
        | none => .error ("invalid symbol")
      else .error ("invalid symbol")
    else
      match mapCharVals b32CharVal [c0, c1, c2, c3, c4, c5, c6, c7], b32DecodePad rest with
      | some fs, .ok tail =>
        match b32DecGroup fs with
        | .ok bytes => .ok (bytes ++ tail)
        | .error e => .error e
      | none, _ => .error ("invalid symbol")
      | _, .error e => .error e
  | _ => .error ("invalid length")

/-- Decodes a final partial block of an unpadded encoding through a value
table and a group decoder. -/
def decSmall (valOf : Char → Option Nat) (grp : List Nat → Except String (List Nat))
    (cs : List Char) : Except String (List Nat) :=
  match mapCharVals valOf cs with
  | some fs => grp fs
  | none => .error ("invalid symbol")

/-- Modelled from the spec: `data_encoding::BASE32_NOPAD.decode`, RFC 4648
without padding: full 8-character blocks followed by an optional final
partial block; `=` is not in the alphabet. -/
def b32DecodeNoPad : List Char → Except String (List Nat)
  | [] => .ok []
  | [c0] => decSmall b32CharVal b32DecGroup [c0]
  | [c0, c1] => decSmall b32CharVal b32DecGroup [c0, c1]
  | [c0, c1, c2] => decSmall b32CharVal b32DecGroup [c0, c1, c2]
  | [c0, c1, c2, c3] => decSmall b32CharVal b32DecGroup [c0, c1, c2, c3]
  | [c0, c1, c2, c3, c4] => decSmall b32CharVal b32DecGroup [c0, c1, c2, c3, c4]
  | [c0, c1, c2, c3, c4, c5] => decSmall b32CharVal b32DecGroup [c0, c1, c2, c3, c4, c5]
  | [c0, c1, c2, c3, c4, c5, c6] =>
    decSmall b32CharVal b32DecGroup [c0, c1, c2, c3, c4, c5, c6]
  | c0 :: c1 :: c2 :: c3 :: c4 :: c5 :: c6 :: c7 :: rest =>
    match mapCharVals b32CharVal [c0, c1, c2, c3, c4, c5, c6, c7], b32DecodeNoPad rest with
    | some fs, .ok tail =>
      match b32DecGroup fs with
      | .ok bytes => .ok (bytes ++ tail)
      | .error e => .error e
    | none, _ => .error ("invalid symbol")
    | _, .error e => .error e

/-- Embeds `Uid::to_base32`. -/
def Uid.to_base32 (u : Uid) : String := String.mk (b32EncodePad u.toBeBytes)

/-- Embeds `Uid::to_unpadded_base32`. -/
def Uid.to_unpadded_base32 (u : Uid) : String := String.mk (b32EncChars u.toBeBytes)

/-- Embeds `Uid::from_base32`: decode, then `Uid::try_from` on the bytes. -/
def Uid.from_base32 (s : String) : Except Error Uid :=
  match b32DecodePad s.toList with
  | .error e => .error (.Decoding e)
  | .ok bs => Uid.tryFrom bs

/-- Embeds `Uid::from_unpadded_base32`: decode, then `Uid::try_from`. -/
def Uid.from_unpadded_base32 (s : String) : Except Error Uid :=
  match b32DecodeNoPad s.toList with
  | .error e => .error (.Decoding e)
  | .ok bs => Uid.tryFrom bs

/-- Standard base64 alphabet. -/
def b64Alphabet : List Char :=
  "ABCDEFGHIJKLMNOPQRSTUVWXYZabcdefghijklmnopqrstuvwxyz0123456789+/".toList

/-- Character of one 6-bit base64 digit. -/
def b64Char (n : Nat) : Char := b64Alphabet.getD n 'A'

/-- Value of one base64 character. -/
def b64CharVal (c : Char) : Option Nat :=
  let i := b64Alphabet.indexOf c
  if i < 64 then some i else none

/-- Modelled from the spec: the encoding half of `data_encoding::BASE64`
(the `data-encoding` crate is not in `src/`), RFC 4648 without padding:
bytes are cut into 6-bit groups, most significant bits first, the last
group zero-padded. -/
def b64EncChars : List Nat → List Char
  | [] => []
  | [b0] => [b64Char (b0 / 4), b64Char (b0 % 4 * 16)]
  | [b0, b1] =>
    [b64Char (b0 / 4), b64Char (b0 % 4 * 16 + b1 / 16), b64Char (b1 % 16 * 4)]
  | b0 :: b1 :: b2 :: rest =>
    [b64Char (b0 / 4), b64Char (b0 % 4 * 16 + b1 / 16),
     b64Char (b1 % 16 * 4 + b2 / 64), b64Char (b2 % 64)] ++ b64EncChars rest

/-- Number of base64 padding characters for a final partial group. -/
def b64PadLen (r : Nat) : Nat :=
  match r with
  | 1 => 2
  | 2 => 1
  | _ => 0

/-- Modelled from the spec: `data_encoding::BASE64.encode`, RFC 4648 with
padding to a multiple of 4 characters. -/
def b64EncodePad (bs : List Nat) : List Char :=
  b64EncChars bs ++ List.replicate (b64PadLen (bs.length % 3)) '='

/-- Decodes one group of 6-bit values back into bytes, rejecting group
sizes that RFC 4648 never produces and nonzero trailing bits. -/
def b64DecGroup : List Nat → Except String (List Nat)
  | [s0, s1] =>
    if s1 % 16 = 0 then .ok [s0 * 4 + s1 / 16] else .error ("trailing bits")
  | [s0, s1, s2] =>
    if s2 % 4 = 0 then .ok [s0 * 4 + s1 / 16, s1 % 16 * 16 + s2 / 4]
    else .error ("trailing bits")
  | [s0, s1, s2, s3] =>
    .ok [s0 * 4 + s1 / 16, s1 % 16 * 16 + s2 / 4, s2 % 4 * 64 + s3]
  | _ => .error ("invalid length")

/-- Modelled from the spec: `data_encoding::BASE64.decode`, RFC 4648 with
padding: the input is cut into 4-character blocks; `=` may occur only as
trailing padding of the last block. -/
def b64DecodePad : List Char → Except String (List Nat)
  | [] => .ok []
  | c0 :: c1 :: c2 :: c3 :: rest =>
    if '=' ∈ [c0, c1, c2, c3] then
      if rest ≠ [] then .error ("padding before the end")
      else if ([c0, c1, c2, c3].dropWhile (· != '=')).all (· == '=') then
        match mapCharVals b64CharVal ([c0, c1, c2, c3].takeWhile (· != '=')) with
        | some ss => b64DecGroup ss
        | none => .error ("invalid symbol")
      else .error ("invalid symbol")
    else
      match mapCharVals b64CharVal [c0, c1, c2, c3], b64DecodePad rest with
      | some ss, .ok tail =>
        match b64DecGroup ss with
        | .ok bytes => .ok (bytes ++ tail)
        | .error e => .error e
      | none, _ => .error ("invalid symbol")
      | _, .error e => .error e
  | _ => .error ("invalid length")

/-- Modelled from the spec: `data_encoding::BASE64_NOPAD.decode`, RFC 4648
without padding: full 4-character blocks followed by an optional final
partial block; `=` is not in the alphabet. -/
def b64DecodeNoPad : List Char → Except String (List Nat)
  | [] => .ok []
  | [c0] => decSmall b64CharVal b64DecGroup [c0]
  | [c0, c1] => decSmall b64CharVal b64DecGroup [c0, c1]
  | [c0, c1, c2] => decSmall b64CharVal b64DecGroup [c0, c1, c2]
  | c0 :: c1 :: c2 :: c3 :: rest =>
    match mapCharVals b64CharVal [c0, c1, c2, c3], b64DecodeNoPad rest with
    | some ss, .ok tail =>
      match b64DecGroup ss with
      | .ok bytes => .ok (bytes ++ tail)
      | .error e => .error e
    | none, _ => .error ("invalid symbol")
    | _, .error e => .error e

/-- Embeds `Uid::to_base64`. -/
def Uid.to_base64 (u : Uid) : String := String.mk (b64EncodePad u.toBeBytes)

/-- Embeds `Uid::to_unpadded_base64`. -/
def Uid.to_unpadded_base64 (u : Uid) : String := String.mk (b64EncChars u.toBeBytes)

/-- Embeds `Uid::from_base64`: decode, then `Uid::try_from` on the bytes. -/
def Uid.from_base64 (s : String) : Except Error Uid :=
  match b64DecodePad s.toList with
  | .error e => .error (.Decoding e)
  | .ok bs => Uid.tryFrom bs

/-- Embeds `Uid::from_unpadded_base64`: decode, then `Uid::try_from`. -/
def Uid.from_unpadded_base64 (s : String) : Except Error Uid :=
  match b64DecodeNoPad s.toList with
  | .error e => .error (.Decoding e)
  | .ok bs => Uid.tryFrom bs

/-- Bitcoin base58 alphabet. -/
def b58Alphabet : List Char :=
  "123456789ABCDEFGHJKLMNPQRSTUVWXYZabcdefghijkmnopqrstuvwxyz".toList

/-- Character of one base58 digit. -/
def b58Char (n : Nat) : Char := b58Alphabet.getD n '1'

/-- Value of one base58 character. -/
def b58CharVal (c : Char) : Option Nat :=
  let i := b58Alphabet.indexOf c
  if i < 58 then some i else none

/-- Big-endian digits of `n` in the given base, most significant first and
without leading zero digits (fuel-driven recursion; `fuel` at least `n`). -/
def natDigitsBEAux (base : Nat) : Nat → Nat → List Nat
  | 0, _ => []
  | _, 0 => []
  | fuel + 1, n + 1 => natDigitsBEAux base fuel ((n + 1) / base) ++ [(n + 1) % base]

/-- Big-endian digits of `n` in the given base (empty for `n = 0`). -/
def natDigitsBE (base n : Nat) : List Nat := natDigitsBEAux base n n

/-- Big-endian value of a digit list in the given base. -/
def digitsVal (base : Nat) (ds : List Nat) : Nat :=
  ds.foldl (fun a d => a * base + d) 0

/-- Modelled from the spec: `bs58::encode` with the Bitcoin alphabet (the
`bs58` crate is not in `src/`): each leading zero byte becomes the
character `1` and the big-endian value of the bytes follows in base58. -/
def b58EncodeBytes (bs : List Nat) : List Char :=
  List.replicate (bs.takeWhile (· == 0)).length '1'
    ++ (natDigitsBE 58 (beBytesToNat bs)).map b58Char

/-- Modelled from the spec: `bs58::decode` with the Bitcoin alphabet: the
characters are read as a big-endian base58 number; each leading `1`
becomes one leading zero byte, followed by the minimal big-endian bytes of
the number. -/
def b58DecodeChars (cs : List Char) : Except String (List Nat) :=
  match mapCharVals b58CharVal cs with
  | none => .error ("invalid character")
  | some vs =>
    .ok (List.replicate (cs.takeWhile (· == '1')).length 0
          ++ natDigitsBE 256 (digitsVal 58 vs))

/-- Embeds `Uid::to_base58`. -/
def Uid.to_base58 (u : Uid) : String := String.mk (b58EncodeBytes u.toBeBytes)

/-- Embeds `Uid::from_base58`: decode, then `Uid::try_from` on the bytes. -/
def Uid.from_base58 (s : String) : Except Error Uid :=
  match b58DecodeChars s.toList with
  | .error e => .error (.Decoding e)
  | .ok bs => Uid.tryFrom bs

/-- Decoded byte count of a decoder result is exactly 8 (false on decoder
failure). -/
def decodesToLen8 (e : Except String (List Nat)) : Prop :=
  match e with
  | .ok bs => bs.length = 8
  | .error _ => False

instance (e : Except String (List Nat)) : Decidable (decodesToLen8 e) := by
  unfold decodesToLen8
  match e with
  | .ok bs => exact inferInstanceAs (Decidable (bs.length = 8))
  | .error _ => exact inferInstanceAs (Decidable False)

theorem toPattern_lt (v : Int) : toPattern v < 2 ^ 64 := by
  unfold toPattern
  omega

theorem ofPattern_toPattern {v : Int} (h1 : -(2 ^ 63) ≤ v) (h2 : v < 2 ^ 63) :
    ofPattern (toPattern v) = v := by
  unfold ofPattern toPattern
  split <;> omega

theorem toPattern_ofPattern {n : Nat} (h : n < 2 ^ 64) :
    toPattern (ofPattern n) = n := by
  unfold ofPattern toPattern
  split <;> omega

theorem inRangeI64_ofPattern {n : Nat} (h : n < 2 ^ 64) :
    -(2 ^ 63) ≤ ofPattern n ∧ ofPattern n < 2 ^ 63 := by
  unfold ofPattern
  split <;> omega

theorem natToBeBytes_length (w : Nat) : ∀ n, (natToBeBytes w n).length = w := by
  induction w with
  | zero => intro n; rfl
  | succ w ih => intro n; simp [natToBeBytes, ih]

theorem natToBeBytes_lt (w : Nat) : ∀ n, ∀ b ∈ natToBeBytes w n, b < 256 := by
  induction w with
  | zero => intro n b hb; simp [natToBeBytes] at hb
  | succ w ih =>
    intro n b hb
    simp only [natToBeBytes, List.mem_append, List.mem_singleton] at hb
    rcases hb with hb | hb
    · exact ih _ b hb
    · omega

theorem beBytesToNat_append_singleton (l : List Nat) (b : Nat) :
    beBytesToNat (l ++ [b]) = beBytesToNat l * 256 + b := by
  induction l with
  | nil => simp [beBytesToNat]
  | cons a t ih =>
    simp only [List.cons_append, beBytesToNat, ih, List.append_eq,
      List.length_append, List.length_singleton, List.length_cons,
      List.length_nil, pow_zero, mul_one]
    ring

theorem beBytesToNat_natToBeBytes (w : Nat) : ∀ n,
    beBytesToNat (natToBeBytes w n) = n % 256 ^ w := by
  induction w with
  | zero => intro n; simp [natToBeBytes, beBytesToNat, Nat.mod_one]
  | succ w ih =>
    intro n
    rw [natToBeBytes, beBytesToNat_append_singleton, ih]
    rw [pow_succ, Nat.mul_comm ((256 : Nat) ^ w) 256, Nat.mod_mul]
    ring

theorem beBytesToNat_lt (l : List Nat) (h : ∀ b ∈ l, b < 256) :
    beBytesToNat l < 256 ^ l.length := by
  induction l with
  | nil => simp [beBytesToNat]
  | cons a t ih =>
    have ha : a < 256 := h a (by simp)
    have ht := ih (fun b hb => h b (by simp [hb]))
    simp only [beBytesToNat, List.length_cons]
    calc a * 256 ^ t.length + beBytesToNat t
        < a * 256 ^ t.length + 256 ^ t.length := by omega
      _ = (a + 1) * 256 ^ t.length := by ring
      _ ≤ 256 * 256 ^ t.length := Nat.mul_le_mul_right _ (by omega)
      _ = 256 ^ (t.length + 1) := by ring

theorem natToBeBytes_beBytesToNat (l : List Nat) (h : ∀ b ∈ l, b < 256) :
    natToBeBytes l.length (beBytesToNat l) = l := by
  induction l using List.reverseRecOn with
  | nil => rfl
  | append_singleton t b ih =>
    have hb : b < 256 := h b (by simp)
    have ht : ∀ x ∈ t, x < 256 := fun x hx => h x (by simp [hx])
    rw [beBytesToNat_append_singleton, List.length_append, List.length_singleton,
      natToBeBytes]
    have hdiv : (beBytesToNat t * 256 + b) / 256 = beBytesToNat t := by omega
    have hmod : (beBytesToNat t * 256 + b) % 256 = b := by omega
    rw [hdiv, hmod, ih ht]

theorem tryFrom_toBeBytes {u : Uid} (h1 : -(2 ^ 63) ≤ u.val) (h2 : u.val < 2 ^ 63) :
    Uid.tryFrom u.toBeBytes = .ok u := by
  unfold Uid.tryFrom Uid.toBeBytes
  rw [if_neg (by simp [natToBeBytes_length])]
  rw [beBytesToNat_natToBeBytes]
  have h256 : (256 : Nat) ^ 8 = 2 ^ 64 := by norm_num
  rw [h256, Nat.mod_eq_of_lt (toPattern_lt u.val), ofPattern_toPattern h1 h2]

theorem toBeBytes_tryFrom (bs : List Nat) (hlen : bs.length = 8)
    (hb : ∀ b ∈ bs, b < 256) :
    Uid.tryFrom bs = .ok ⟨ofPattern (beBytesToNat bs)⟩
      ∧ (Uid.mk (ofPattern (beBytesToNat bs))).toBeBytes = bs := by
  constructor
  · unfold Uid.tryFrom
    rw [if_neg (by omega)]
  · unfold Uid.toBeBytes
    have hlt : beBytesToNat bs < 2 ^ 64 := by
      have := beBytesToNat_lt bs hb
      rw [hlen] at this
      omega
    rw [toPattern_ofPattern hlt, ← hlen, natToBeBytes_beBytesToNat bs hb]

/-- Claim C4: the conversions between an identifier and its 8-byte big-endian
buffer, and between an identifier and a signed 64-bit integer, are lossless
bijections: for every identifier `x` (any `i64` value), bytes-and-back and
`i64`-and-back yield `x`, and for every `i64` value `n`, including negative
ones, `Uid`-and-back yields `n`. -/
theorem uid_conversions_lossless (u : Uid) (n : Int)
    (hu1 : -(2 ^ 63) ≤ u.val) (hu2 : u.val < 2 ^ 63)
    (_hn1 : -(2 ^ 63) ≤ n) (_hn2 : n < 2 ^ 63) :
    Uid.tryFrom u.toBeBytes = .ok u ∧ Uid.ofI64 u.toI64 = u
      ∧ (Uid.ofI64 n).toI64 = n := by
  refine ⟨tryFrom_toBeBytes hu1 hu2, ?_, rfl⟩
  cases u
  rfl

/-- Witness for C4 at the negative value `-5`. -/
theorem uid_conversions_lossless_witness :
    Uid.tryFrom (Uid.mk (-5)).toBeBytes = .ok ⟨-5⟩
      ∧ Uid.ofI64 (Uid.mk (-5)).toI64 = ⟨-5⟩
      ∧ (Uid.ofI64 (-5)).toI64 = -5 :=
  uid_conversions_lossless ⟨-5⟩ (-5) (by decide) (by decide) (by decide) (by decide)

/-- Claim C5: for every byte slice whose length is not exactly 8,
`Uid::try_from` returns a `Decoding` error whose message reports the
received length (the message contains the decimal slice length). -/
theorem tryFrom_wrong_length_error (bs : List Nat) (h : bs.length ≠ 8) :
    Uid.tryFrom bs =
      .error (.Decoding ("expected len to be 8, but was " ++ toString bs.length))
    ∧ ∃ pre post, ("expected len to be 8, but was " ++ toString bs.length)
        = pre ++ toString bs.length ++ post := by
  constructor
  · unfold Uid.tryFrom
    rw [if_pos h]
  · exact ⟨"expected len to be 8, but was ", "", by simp⟩

/-- Witness for C5 at a slice of length 3. -/
theorem tryFrom_wrong_length_error_witness :
    Uid.tryFrom [1, 2, 3] =
      .error (.Decoding ("expected len to be 8, but was "
        ++ toString ([1, 2, 3] : List Nat).length))
    ∧ ∃ pre post, ("expected len to be 8, but was "
        ++ toString ([1, 2, 3] : List Nat).length)
        = pre ++ toString ([1, 2, 3] : List Nat).length ++ post :=
  tryFrom_wrong_length_error [1, 2, 3] (by decide)

/-- Claim C8: two identifiers are equal exactly when their underlying 64-bit
integers are equal. -/
theorem uid_eq_iff_i64_eq (x y : Uid) : x = y ↔ x.toI64 = y.toI64 := by
  cases x
  cases y
  simp [Uid.toI64]

/-- Claim C9: every byte array of length exactly 8 (with byte-sized entries)
is accepted by `Uid::try_from`, and converting the resulting identifier back
to bytes returns the original buffer unchanged; no content validation
happens. -/
theorem tryFrom_accepts_all_8_byte_buffers (bs : List Nat) (hlen : bs.length = 8)
    (hb : ∀ b ∈ bs, b < 256) :
    ∃ u, Uid.tryFrom bs = .ok u ∧ u.toBeBytes = bs := by
  obtain ⟨h1, h2⟩ := toBeBytes_tryFrom bs hlen hb
  exact ⟨⟨ofPattern (beBytesToNat bs)⟩, h1, h2⟩

/-- Witness for C9 at a buffer that no generated identifier produces. -/
theorem tryFrom_accepts_all_8_byte_buffers_witness :
    ∃ u, Uid.tryFrom [255, 255, 255, 255, 255, 0, 1, 2] = .ok u
      ∧ u.toBeBytes = [255, 255, 255, 255, 255, 0, 1, 2] :=
  tryFrom_accepts_all_8_byte_buffers [255, 255, 255, 255, 255, 0, 1, 2]
    (by decide) (by decide)

/-- Claim C10: the default identifier is the all-zero value: it equals
`Uid::from(0)`, its `i64` value is 0, and its byte buffer is eight zero
bytes. -/
theorem default_uid_is_zero :
    Uid.defaultUid = Uid.ofI64 0 ∧ Uid.defaultUid.toI64 = 0
      ∧ Uid.defaultUid.toBeBytes = List.replicate 8 0 := by
  refine ⟨rfl, rfl, ?_⟩
  decide

theorem natToBeBytes_succ (w n : Nat) :
    natToBeBytes (w + 1) n = natToBeBytes w (n / 256) ++ [n % 256] := rfl

theorem uid_new_pattern (ts : Int) (r0 r1 r2 : Nat)
    (h0 : r0 < 256) (h1 : r1 < 256) (h2 : r2 < 256) :
    (Uid.new ts r0 r1 r2).val
      = ofPattern (2 ^ 24 * (toPattern ts % 2 ^ 40)
          + (r0 * 2 ^ 16 + r1 * 2 ^ 8 + r2)) := by
  show ofPattern (Nat.lor
      (toPattern (ofPattern (toPattern ts * 2 ^ 24 % 2 ^ 64)))
      (toPattern (ofPattern (beBytesToNat [0, 0, 0, 0, 0, r0, r1, r2])))) = _
  have hr : beBytesToNat [0, 0, 0, 0, 0, r0, r1, r2]
      = r0 * 2 ^ 16 + r1 * 2 ^ 8 + r2 := by
    simp only [beBytesToNat, List.length_cons, List.length_nil]
    norm_num
    ring
  rw [hr]
  have hrlt : r0 * 2 ^ 16 + r1 * 2 ^ 8 + r2 < 2 ^ 24 := by omega
  rw [toPattern_ofPattern (show r0 * 2 ^ 16 + r1 * 2 ^ 8 + r2 < 2 ^ 64 by omega)]
  rw [toPattern_ofPattern (Nat.mod_lt _ (by norm_num))]
  have hm : toPattern ts * 2 ^ 24 % 2 ^ 64 = 2 ^ 24 * (toPattern ts % 2 ^ 40) := by
    rw [show (2 : Nat) ^ 64 = 2 ^ 40 * 2 ^ 24 by norm_num, Nat.mul_mod_mul_right]
    ring
  rw [hm]
  have hor : Nat.lor (2 ^ 24 * (toPattern ts % 2 ^ 40))
      (r0 * 2 ^ 16 + r1 * 2 ^ 8 + r2)
      = 2 ^ 24 * (toPattern ts % 2 ^ 40) + (r0 * 2 ^ 16 + r1 * 2 ^ 8 + r2) :=
    (Nat.mul_add_lt_is_or hrlt _).symm
  rw [hor]

theorem natToBeBytes8_decompose (T r0 r1 r2 : Nat)
    (h0 : r0 < 256) (h1 : r1 < 256) (h2 : r2 < 256) :
    natToBeBytes 8 (2 ^ 24 * T + (r0 * 2 ^ 16 + r1 * 2 ^ 8 + r2))
      = natToBeBytes 5 T ++ [r0, r1, r2] := by
  set n := 2 ^ 24 * T + (r0 * 2 ^ 16 + r1 * 2 ^ 8 + r2) with hn
  have e2 : n % 256 = r2 := by omega
  have d1 : n / 256 = 2 ^ 16 * T + (r0 * 2 ^ 8 + r1) := by omega
  have e1 : (2 ^ 16 * T + (r0 * 2 ^ 8 + r1)) % 256 = r1 := by omega
  have d2 : (2 ^ 16 * T + (r0 * 2 ^ 8 + r1)) / 256 = 2 ^ 8 * T + r0 := by omega
  have e0 : (2 ^ 8 * T + r0) % 256 = r0 := by omega
  have d3 : (2 ^ 8 * T + r0) / 256 = T := by omega
  rw [natToBeBytes_succ 7 n, e2, d1, natToBeBytes_succ 6, e1, d2,
    natToBeBytes_succ 5, e0, d3]
  simp [List.append_assoc]

theorem uid_new_toBeBytes (t : Int) (r0 r1 r2 : Nat)
    (h0 : r0 < 256) (h1 : r1 < 256) (h2 : r2 < 256) :
    (Uid.new t r0 r1 r2).toBeBytes
      = natToBeBytes 5 (toPattern t % 2 ^ 40) ++ [r0, r1, r2] := by
  unfold Uid.toBeBytes
  rw [uid_new_pattern t r0 r1 r2 h0 h1 h2]
  have hT : toPattern t % 2 ^ 40 < 2 ^ 40 := Nat.mod_lt _ (by norm_num)
  have hN : 2 ^ 24 * (toPattern t % 2 ^ 40) + (r0 * 2 ^ 16 + r1 * 2 ^ 8 + r2)
      < 2 ^ 64 := by omega
  rw [toPattern_ofPattern hN]
  exact natToBeBytes8_decompose _ r0 r1 r2 h0 h1 h2

/-- Claim C3: a newly constructed identifier has the value
`(timestamp << 24) | random_24_bits`: for every timestamp `t` and random
bytes `r0 r1 r2`, the top 5 bytes of the big-endian form are the bytes of
the shifted timestamp (only the low 40 bits of `t` survive) and the low 3
bytes are the random bytes; with zero random bytes the low 3 bytes are
zero. -/
theorem new_uid_layout (t : Int) (r0 r1 r2 : Nat)
    (h0 : r0 < 256) (h1 : r1 < 256) (h2 : r2 < 256) :
    (Uid.new t r0 r1 r2).toBeBytes
      = natToBeBytes 5 (toPattern t % 2 ^ 40) ++ [r0, r1, r2]
    ∧ (Uid.new t 0 0 0).toBeBytes
      = natToBeBytes 5 (toPattern t % 2 ^ 40) ++ [0, 0, 0] :=
  ⟨uid_new_toBeBytes t r0 r1 r2 h0 h1 h2,
   uid_new_toBeBytes t 0 0 0 (by omega) (by omega) (by omega)⟩

/-- Witness for C3 at timestamp 3 with random bytes 7, 8, 9. -/
theorem new_uid_layout_witness :
    (Uid.new 3 7 8 9).toBeBytes = natToBeBytes 5 (toPattern 3 % 2 ^ 40) ++ [7, 8, 9]
    ∧ (Uid.new 3 0 0 0).toBeBytes = natToBeBytes 5 (toPattern 3 % 2 ^ 40) ++ [0, 0, 0] :=
  new_uid_layout 3 7 8 9 (by decide) (by decide) (by decide)

theorem uid_new_val_small (t : Int) (r0 r1 r2 : Nat)
    (ht0 : 0 ≤ t) (ht1 : t < 2 ^ 39)
    (h0 : r0 < 256) (h1 : r1 < 256) (h2 : r2 < 256) :
    (Uid.new t r0 r1 r2).val
      = t * 2 ^ 24 + ((r0 * 2 ^ 16 + r1 * 2 ^ 8 + r2 : Nat) : Int) := by
  rw [uid_new_pattern t r0 r1 r2 h0 h1 h2]
  have hT : toPattern t = t.toNat := by
    unfold toPattern
    omega
  rw [hT, Nat.mod_eq_of_lt (show t.toNat < 2 ^ 40 by omega)]
  unfold ofPattern
  rw [if_pos (by omega)]
  push_cast
  omega

/-- Claim C7: integer ordering of the raw `i64` values is time-ordered
across identifiers generated at different seconds (generation-time
timestamps are nonnegative and fit the 40-bit window, hence the bounds),
while identifiers sharing the same second are not ordered: the random bits
dominate, as the exhibited pair shows. -/
theorem uid_time_ordered (t1 t2 : Int) (a0 a1 a2 b0 b1 b2 : Nat)
    (ht0 : 0 ≤ t1) (hlt : t1 < t2) (ht1 : t2 < 2 ^ 39)
    (ha0 : a0 < 256) (ha1 : a1 < 256) (ha2 : a2 < 256)
    (hb0 : b0 < 256) (hb1 : b1 < 256) (hb2 : b2 < 256) :
    (Uid.new t1 a0 a1 a2).toI64 < (Uid.new t2 b0 b1 b2).toI64
    ∧ ∃ t c0 c1 c2 d0 d1 d2, c0 < 256 ∧ c1 < 256 ∧ c2 < 256
        ∧ d0 < 256 ∧ d1 < 256 ∧ d2 < 256
        ∧ (Uid.new t d0 d1 d2).toI64 < (Uid.new t c0 c1 c2).toI64 := by
  constructor
  · show (Uid.new t1 a0 a1 a2).val < (Uid.new t2 b0 b1 b2).val
    rw [uid_new_val_small t1 a0 a1 a2 ht0 (by omega) ha0 ha1 ha2]
    rw [uid_new_val_small t2 b0 b1 b2 (by omega) ht1 hb0 hb1 hb2]
    have hA : a0 * 2 ^ 16 + a1 * 2 ^ 8 + a2 < 2 ^ 24 := by omega
    push_cast
    nlinarith [hA, hlt]
  · refine ⟨0, 0, 0, 1, 0, 0, 0, by decide, by decide, by decide, by decide,
      by decide, by decide, by decide⟩

/-- Witness for C7 at timestamps 1 and 2. -/
theorem uid_time_ordered_witness :
    (Uid.new 1 255 255 255).toI64 < (Uid.new 2 0 0 0).toI64
    ∧ ∃ t c0 c1 c2 d0 d1 d2, c0 < 256 ∧ c1 < 256 ∧ c2 < 256
        ∧ d0 < 256 ∧ d1 < 256 ∧ d2 < 256
        ∧ (Uid.new t d0 d1 d2).toI64 < (Uid.new t c0 c1 c2).toI64 :=
  uid_time_ordered 1 2 255 255 255 0 0 0 (by decide) (by decide) (by decide)
    (by decide) (by decide) (by decide) (by decide) (by decide) (by decide)

theorem toBeBytes_length (u : Uid) : u.toBeBytes.length = 8 := by
  unfold Uid.toBeBytes
  exact natToBeBytes_length 8 _

theorem toBeBytes_bytes_lt (u : Uid) : ∀ b ∈ u.toBeBytes, b < 256 :=
  natToBeBytes_lt 8 _

theorem ofPattern_beBytesToNat_toBeBytes {u : Uid}
    (h1 : -(2 ^ 63) ≤ u.val) (h2 : u.val < 2 ^ 63) :
    ofPattern (beBytesToNat u.toBeBytes) = u.val := by
  unfold Uid.toBeBytes
  rw [beBytesToNat_natToBeBytes 8, show (256 : Nat) ^ 8 = 2 ^ 64 by norm_num,
    Nat.mod_eq_of_lt (toPattern_lt u.val), ofPattern_toPattern h1 h2]

theorem bytesToHex_length (bs : List Nat) : (bytesToHex bs).length = 2 * bs.length := by
  induction bs with
  | nil => rfl
  | cons b t ih =>
    simp only [bytesToHex, byteToHex, List.cons_append, List.length_cons,
      List.nil_append, ih, List.length_cons]
    omega

theorem hexDigitChar_mem (d : Nat) (h : d < 16) : hexDigitChar d ∈ hexAlphabet := by
  revert d
  decide

theorem bytesToHex_mem_hexAlphabet (bs : List Nat) (h : ∀ b ∈ bs, b < 256) :
    ∀ c ∈ bytesToHex bs, c ∈ hexAlphabet := by
  induction bs with
  | nil => intro c hc; simp [bytesToHex] at hc
  | cons b t ih =>
    intro c hc
    have hb : b < 256 := h b (by simp)
    simp only [bytesToHex, byteToHex, List.cons_append, List.nil_append,
      List.mem_cons] at hc
    rcases hc with rfl | rfl | hc
    · exact hexDigitChar_mem _ (by omega)
    · exact hexDigitChar_mem _ (by omega)
    · exact ih (fun x hx => h x (by simp [hx])) c hc

/-- Claim C6: `to_base16` (and its alias `to_hex`) is total and returns a
lowercase hexadecimal string of fixed length 16, twice the 8-byte width. -/
theorem to_base16_lowercase_fixed_length (u : Uid) :
    (u.to_base16).length = 16
    ∧ (∀ c ∈ (u.to_base16).toList, c ∈ hexAlphabet)
    ∧ u.to_hex = u.to_base16 := by
  refine ⟨?_, ?_, rfl⟩
  · show (String.mk (bytesToHex u.toBeBytes)).length = 16
    simp only [String.length]
    rw [bytesToHex_length, toBeBytes_length]
  · intro c hc
    exact bytesToHex_mem_hexAlphabet _ (toBeBytes_bytes_lt u) c hc

theorem hexCharVal_hexDigitChar (d : Nat) (h : d < 16) :
    hexCharVal (hexDigitChar d) = some d := by
  revert d
  decide

theorem hexDecodePairs_bytesToHex (bs : List Nat) (h : ∀ b ∈ bs, b < 256) :
    hexDecodePairs (bytesToHex bs) = some bs := by
  induction bs with
  | nil => rfl
  | cons b t ih =>
    have hb : b < 256 := h b (by simp)
    have e1 : hexCharVal (hexDigitChar (b / 16)) = some (b / 16) :=
      hexCharVal_hexDigitChar _ (by omega)
    have e2 : hexCharVal (hexDigitChar (b % 16)) = some (b % 16) :=
      hexCharVal_hexDigitChar _ (by omega)
    show hexDecodePairs
        (hexDigitChar (b / 16) :: hexDigitChar (b % 16) :: bytesToHex t) = _
    simp only [hexDecodePairs, e1, e2, ih (fun x hx => h x (by simp [hx]))]
    have : b / 16 * 16 + b % 16 = b := by omega
    rw [this]

theorem list_len8_destruct (l : List Nat) (h : l.length = 8) :
    ∃ b0 b1 b2 b3 b4 b5 b6 b7, l = [b0, b1, b2, b3, b4, b5, b6, b7] := by
  rcases l with _ | ⟨b0, l⟩
  · simp at h
  rcases l with _ | ⟨b1, l⟩
  · simp at h
  rcases l with _ | ⟨b2, l⟩
  · simp at h
  rcases l with _ | ⟨b3, l⟩
  · simp at h
  rcases l with _ | ⟨b4, l⟩
  · simp at h
  rcases l with _ | ⟨b5, l⟩
  · simp at h
  rcases l with _ | ⟨b6, l⟩
  · simp at h
  rcases l with _ | ⟨b7, l⟩
  · simp at h
  rcases l with _ | ⟨b8, l⟩
  · exact ⟨b0, b1, b2, b3, b4, b5, b6, b7, rfl⟩
  · simp only [List.length_cons, List.length_nil] at h
    omega

theorem from_to_base16_ok {u : Uid} (h1 : -(2 ^ 63) ≤ u.val) (h2 : u.val < 2 ^ 63) :
    Uid.from_base16 u.to_base16 = .ok u := by
  have hlen : (bytesToHex u.toBeBytes).length = 16 := by
    rw [bytesToHex_length, toBeBytes_length]
  have hdec : hex_decode (bytesToHex u.toBeBytes) 8 = .ok u.toBeBytes := by
    unfold hex_decode
    rw [if_neg (by omega)]
    rw [hexDecodePairs_bytesToHex _ (toBeBytes_bytes_lt u)]
  unfold Uid.from_base16 Uid.to_base16
  rw [show (String.mk (bytesToHex u.toBeBytes)).toList = bytesToHex u.toBeBytes
    from rfl]
  rw [hdec]
  show Except.ok ⟨ofPattern (beBytesToNat u.toBeBytes)⟩ = Except.ok u
  rw [ofPattern_beBytesToNat_toBeBytes h1 h2]
theorem b32CharVal_b32Char (f : Nat) (h : f < 32) : b32CharVal (b32Char f) = some f := by
  revert f
  decide

theorem b32Char_ne_pad (f : Nat) (h : f < 32) : b32Char f ≠ '=' := by
  revert f
  decide

theorem takeWhile_data_pad (l1 l2 : List Char)
    (h1 : ∀ c ∈ l1, c ≠ '=') (h2 : ∀ c ∈ l2, c = '=') :
    (l1 ++ l2).takeWhile (· != '=') = l1 := by
  induction l1 with
  | nil =>
    cases l2 with
    | nil => rfl
    | cons a t =>
      have := h2 a (by simp)
      subst this
      rfl
  | cons a t ih =>
    have ha : (a != '=') = true := bne_iff_ne.mpr (h1 a (by simp))
    simp only [List.cons_append, List.takeWhile_cons, ha, if_true]
    rw [ih (fun c hc => h1 c (by simp [hc]))]

theorem dropWhile_data_pad (l1 l2 : List Char)
    (h1 : ∀ c ∈ l1, c ≠ '=') (h2 : ∀ c ∈ l2, c = '=') :
    (l1 ++ l2).dropWhile (· != '=') = l2 := by
  induction l1 with
  | nil =>
    cases l2 with
    | nil => rfl
    | cons a t =>
      have := h2 a (by simp)
      subst this
      rfl
  | cons a t ih =>
    have ha : (a != '=') = true := bne_iff_ne.mpr (h1 a (by simp))
    simp only [List.cons_append, List.dropWhile_cons, ha, if_true]
    exact ih (fun c hc => h1 c (by simp [hc]))

theorem b32_final_chunk (b5 b6 b7 : Nat) (h5 : b5 < 256) (h6 : b6 < 256) (h7 : b7 < 256) :
    b32DecodePad [b32Char (b5 / 8), b32Char (b5 % 8 * 4 + b6 / 64), b32Char (b6 / 2 % 32),
      b32Char (b6 % 2 * 16 + b7 / 16), b32Char (b7 % 16 * 2), '=', '=', '=']
      = .ok [b5, b6, b7] := by
  have e0 : b32CharVal (b32Char (b5 / 8)) = some (b5 / 8) :=
    b32CharVal_b32Char _ (by omega)
  have e1 : b32CharVal (b32Char (b5 % 8 * 4 + b6 / 64)) = some (b5 % 8 * 4 + b6 / 64) :=
    b32CharVal_b32Char _ (by omega)
  have e2 : b32CharVal (b32Char (b6 / 2 % 32)) = some (b6 / 2 % 32) :=
    b32CharVal_b32Char _ (by omega)
  have e3 : b32CharVal (b32Char (b6 % 2 * 16 + b7 / 16)) = some (b6 % 2 * 16 + b7 / 16) :=
    b32CharVal_b32Char _ (by omega)
  have e4 : b32CharVal (b32Char (b7 % 16 * 2)) = some (b7 % 16 * 2) :=
    b32CharVal_b32Char _ (by omega)
  have hne : ∀ c ∈ [b32Char (b5 / 8), b32Char (b5 % 8 * 4 + b6 / 64),
      b32Char (b6 / 2 % 32), b32Char (b6 % 2 * 16 + b7 / 16), b32Char (b7 % 16 * 2)],
      c ≠ '=' := by
    intro c hc
    simp only [List.mem_cons, List.not_mem_nil, or_false] at hc
    rcases hc with rfl | rfl | rfl | rfl | rfl
    · exact b32Char_ne_pad _ (by omega)
    · exact b32Char_ne_pad _ (by omega)
    · exact b32Char_ne_pad _ (by omega)
    · exact b32Char_ne_pad _ (by omega)
    · exact b32Char_ne_pad _ (by omega)
  have hpad : ∀ c ∈ ['=', '=', '='], c = '=' := by decide
  have htake : ([b32Char (b5 / 8), b32Char (b5 % 8 * 4 + b6 / 64), b32Char (b6 / 2 % 32),
      b32Char (b6 % 2 * 16 + b7 / 16), b32Char (b7 % 16 * 2), '=', '=', '=']).takeWhile
        (· != '=')
      = [b32Char (b5 / 8), b32Char (b5 % 8 * 4 + b6 / 64), b32Char (b6 / 2 % 32),
         b32Char (b6 % 2 * 16 + b7 / 16), b32Char (b7 % 16 * 2)] :=
    takeWhile_data_pad _ _ hne hpad
  have hdrop : ([b32Char (b5 / 8), b32Char (b5 % 8 * 4 + b6 / 64), b32Char (b6 / 2 % 32),
      b32Char (b6 % 2 * 16 + b7 / 16), b32Char (b7 % 16 * 2), '=', '=', '=']).dropWhile
        (· != '=')
      = ['=', '=', '='] :=
    dropWhile_data_pad _ _ hne hpad
  simp only [b32DecodePad]
  rw [if_pos (show ('=' : Char) ∈ [b32Char (b5 / 8), b32Char (b5 % 8 * 4 + b6 / 64),
      b32Char (b6 / 2 % 32), b32Char (b6 % 2 * 16 + b7 / 16), b32Char (b7 % 16 * 2),
      '=', '=', '='] by simp)]
  rw [if_neg (show ¬(([] : List Char) ≠ []) by simp)]
  rw [hdrop]
  rw [if_pos (show (['=', '=', '='].all (· == '=')) = true from rfl)]
  rw [htake]
  simp only [mapCharVals, e0, e1, e2, e3, e4]
  simp only [b32DecGroup]
  rw [if_pos (show b7 % 16 * 2 % 2 = 0 by omega)]
  simp only [Except.ok.injEq, List.cons.injEq, and_true]
  refine ⟨by omega, by omega, by omega⟩

theorem b32_pad_roundtrip (b0 b1 b2 b3 b4 b5 b6 b7 : Nat)
    (h0 : b0 < 256) (h1 : b1 < 256) (h2 : b2 < 256) (h3 : b3 < 256)
    (h4 : b4 < 256) (h5 : b5 < 256) (h6 : b6 < 256) (h7 : b7 < 256) :
    b32DecodePad (b32EncodePad [b0, b1, b2, b3, b4, b5, b6, b7])
      = .ok [b0, b1, b2, b3, b4, b5, b6, b7] := by
  have hfinal := b32_final_chunk b5 b6 b7 h5 h6 h7
  have e0 : b32CharVal (b32Char (b0 / 8)) = some (b0 / 8) :=
    b32CharVal_b32Char _ (by omega)
  have e1 : b32CharVal (b32Char (b0 % 8 * 4 + b1 / 64)) = some (b0 % 8 * 4 + b1 / 64) :=
    b32CharVal_b32Char _ (by omega)
  have e2 : b32CharVal (b32Char (b1 / 2 % 32)) = some (b1 / 2 % 32) :=
    b32CharVal_b32Char _ (by omega)
  have e3 : b32CharVal (b32Char (b1 % 2 * 16 + b2 / 16)) = some (b1 % 2 * 16 + b2 / 16) :=
    b32CharVal_b32Char _ (by omega)
  have e4 : b32CharVal (b32Char (b2 % 16 * 2 + b3 / 128)) = some (b2 % 16 * 2 + b3 / 128) :=
    b32CharVal_b32Char _ (by omega)
  have e5 : b32CharVal (b32Char (b3 / 4 % 32)) = some (b3 / 4 % 32) :=
    b32CharVal_b32Char _ (by omega)
  have e6 : b32CharVal (b32Char (b3 % 4 * 8 + b4 / 32)) = some (b3 % 4 * 8 + b4 / 32) :=
    b32CharVal_b32Char _ (by omega)
  have e7 : b32CharVal (b32Char (b4 % 32)) = some (b4 % 32) :=
    b32CharVal_b32Char _ (by omega)
  have hnotmem : ('=' : Char) ∉ [b32Char (b0 / 8), b32Char (b0 % 8 * 4 + b1 / 64),
      b32Char (b1 / 2 % 32), b32Char (b1 % 2 * 16 + b2 / 16),
      b32Char (b2 % 16 * 2 + b3 / 128), b32Char (b3 / 4 % 32),
      b32Char (b3 % 4 * 8 + b4 / 32), b32Char (b4 % 32)] := by
    intro hm
    simp only [List.mem_cons, List.not_mem_nil, or_false] at hm
    rcases hm with h | h | h | h | h | h | h | h
    · exact b32Char_ne_pad _ (by omega) h.symm
    · exact b32Char_ne_pad _ (by omega) h.symm
    · exact b32Char_ne_pad _ (by omega) h.symm
    · exact b32Char_ne_pad _ (by omega) h.symm
    · exact b32Char_ne_pad _ (by omega) h.symm
    · exact b32Char_ne_pad _ (by omega) h.symm
    · exact b32Char_ne_pad _ (by omega) h.symm
    · exact b32Char_ne_pad _ (by omega) h.symm
  have henc : b32EncodePad [b0, b1, b2, b3, b4, b5, b6, b7]
      = [b32Char (b0 / 8), b32Char (b0 % 8 * 4 + b1 / 64), b32Char (b1 / 2 % 32),
         b32Char (b1 % 2 * 16 + b2 / 16), b32Char (b2 % 16 * 2 + b3 / 128),
         b32Char (b3 / 4 % 32), b32Char (b3 % 4 * 8 + b4 / 32), b32Char (b4 % 32),
         b32Char (b5 / 8), b32Char (b5 % 8 * 4 + b6 / 64), b32Char (b6 / 2 % 32),
         b32Char (b6 % 2 * 16 + b7 / 16), b32Char (b7 % 16 * 2), '=', '=', '='] := by
    unfold b32EncodePad
    rw [show ([b0, b1, b2, b3, b4, b5, b6, b7] : List Nat).length = 8 from rfl]
    rw [show List.replicate (b32PadLen (8 % 5)) '=' = ['=', '=', '='] from rfl]
    rw [show b32EncChars [b0, b1, b2, b3, b4, b5, b6, b7]
        = [b32Char (b0 / 8), b32Char (b0 % 8 * 4 + b1 / 64), b32Char (b1 / 2 % 32),
           b32Char (b1 % 2 * 16 + b2 / 16), b32Char (b2 % 16 * 2 + b3 / 128),
           b32Char (b3 / 4 % 32), b32Char (b3 % 4 * 8 + b4 / 32), b32Char (b4 % 32),
           b32Char (b5 / 8), b32Char (b5 % 8 * 4 + b6 / 64), b32Char (b6 / 2 % 32),
           b32Char (b6 % 2 * 16 + b7 / 16), b32Char (b7 % 16 * 2)] from rfl]
    rfl
  rw [henc]
  rw [b32DecodePad]
  rw [if_neg hnotmem]
  rw [hfinal]
  simp only [mapCharVals, e0, e1, e2, e3, e4, e5, e6, e7]
  simp only [b32DecGroup]
  simp only [List.cons_append, List.nil_append]
  simp only [Except.ok.injEq, List.cons.injEq, and_true]
  omega

theorem b32_nopad_roundtrip (b0 b1 b2 b3 b4 b5 b6 b7 : Nat)
    (h0 : b0 < 256) (h1 : b1 < 256) (h2 : b2 < 256) (h3 : b3 < 256)
    (h4 : b4 < 256) (h5 : b5 < 256) (h6 : b6 < 256) (h7 : b7 < 256) :
    b32DecodeNoPad (b32EncChars [b0, b1, b2, b3, b4, b5, b6, b7])
      = .ok [b0, b1, b2, b3, b4, b5, b6, b7] := by
  have e0 : b32CharVal (b32Char (b0 / 8)) = some (b0 / 8) :=
    b32CharVal_b32Char _ (by omega)
  have e1 : b32CharVal (b32Char (b0 % 8 * 4 + b1 / 64)) = some (b0 % 8 * 4 + b1 / 64) :=
    b32CharVal_b32Char _ (by omega)
  have e2 : b32CharVal (b32Char (b1 / 2 % 32)) = some (b1 / 2 % 32) :=
    b32CharVal_b32Char _ (by omega)
  have e3 : b32CharVal (b32Char (b1 % 2 * 16 + b2 / 16)) = some (b1 % 2 * 16 + b2 / 16) :=
    b32CharVal_b32Char _ (by omega)
  have e4 : b32CharVal (b32Char (b2 % 16 * 2 + b3 / 128)) = some (b2 % 16 * 2 + b3 / 128) :=
    b32CharVal_b32Char _ (by omega)
  have e5 : b32CharVal (b32Char (b3 / 4 % 32)) = some (b3 / 4 % 32) :=
    b32CharVal_b32Char _ (by omega)
  have e6 : b32CharVal (b32Char (b3 % 4 * 8 + b4 / 32)) = some (b3 % 4 * 8 + b4 / 32) :=
    b32CharVal_b32Char _ (by omega)
  have e7 : b32CharVal (b32Char (b4 % 32)) = some (b4 % 32) :=
    b32CharVal_b32Char _ (by omega)
  have e8 : b32CharVal (b32Char (b5 / 8)) = some (b5 / 8) :=
    b32CharVal_b32Char _ (by omega)
  have e9 : b32CharVal (b32Char (b5 % 8 * 4 + b6 / 64)) = some (b5 % 8 * 4 + b6 / 64) :=
    b32CharVal_b32Char _ (by omega)
  have e10 : b32CharVal (b32Char (b6 / 2 % 32)) = some (b6 / 2 % 32) :=
    b32CharVal_b32Char _ (by omega)
  have e11 : b32CharVal (b32Char (b6 % 2 * 16 + b7 / 16)) = some (b6 % 2 * 16 + b7 / 16) :=
    b32CharVal_b32Char _ (by omega)
  have e12 : b32CharVal (b32Char (b7 % 16 * 2)) = some (b7 % 16 * 2) :=
    b32CharVal_b32Char _ (by omega)
  have hinner : b32DecodeNoPad [b32Char (b5 / 8), b32Char (b5 % 8 * 4 + b6 / 64),
      b32Char (b6 / 2 % 32), b32Char (b6 % 2 * 16 + b7 / 16), b32Char (b7 % 16 * 2)]
      = .ok [b5, b6, b7] := by
    rw [b32DecodeNoPad]
    unfold decSmall
    simp only [mapCharVals, e8, e9, e10, e11, e12]
    simp only [b32DecGroup]
    rw [if_pos (show b7 % 16 * 2 % 2 = 0 by omega)]
    simp only [Except.ok.injEq, List.cons.injEq, and_true]
    omega
  rw [show b32EncChars [b0, b1, b2, b3, b4, b5, b6, b7]
      = [b32Char (b0 / 8), b32Char (b0 % 8 * 4 + b1 / 64), b32Char (b1 / 2 % 32),
         b32Char (b1 % 2 * 16 + b2 / 16), b32Char (b2 % 16 * 2 + b3 / 128),
         b32Char (b3 / 4 % 32), b32Char (b3 % 4 * 8 + b4 / 32), b32Char (b4 % 32),
         b32Char (b5 / 8), b32Char (b5 % 8 * 4 + b6 / 64), b32Char (b6 / 2 % 32),
         b32Char (b6 % 2 * 16 + b7 / 16), b32Char (b7 % 16 * 2)] from rfl]
  rw [b32DecodeNoPad]
  rw [hinner]
  simp only [mapCharVals, e0, e1, e2, e3, e4, e5, e6, e7]
  simp only [b32DecGroup]
  simp only [List.cons_append, List.nil_append]
  simp only [Except.ok.injEq, List.cons.injEq, and_true]
  omega

theorem b64CharVal_b64Char (f : Nat) (h : f < 64) : b64CharVal (b64Char f) = some f := by
  revert f
  decide

theorem b64Char_ne_pad (f : Nat) (h : f < 64) : b64Char f ≠ '=' := by
  revert f
  decide

theorem b64_final_chunk (b6 b7 : Nat) (h6 : b6 < 256) (h7 : b7 < 256) :
    b64DecodePad [b64Char (b6 / 4), b64Char (b6 % 4 * 16 + b7 / 16),
      b64Char (b7 % 16 * 4), '='] = .ok [b6, b7] := by
  have e8 : b64CharVal (b64Char (b6 / 4)) = some (b6 / 4) :=
    b64CharVal_b64Char _ (by omega)
  have e9 : b64CharVal (b64Char (b6 % 4 * 16 + b7 / 16)) = some (b6 % 4 * 16 + b7 / 16) :=
    b64CharVal_b64Char _ (by omega)
  have e10 : b64CharVal (b64Char (b7 % 16 * 4)) = some (b7 % 16 * 4) :=
    b64CharVal_b64Char _ (by omega)
  have hne : ∀ c ∈ [b64Char (b6 / 4), b64Char (b6 % 4 * 16 + b7 / 16),
      b64Char (b7 % 16 * 4)], c ≠ '=' := by
    intro c hc
    simp only [List.mem_cons, List.not_mem_nil, or_false] at hc
    rcases hc with rfl | rfl | rfl
    · exact b64Char_ne_pad _ (by omega)
    · exact b64Char_ne_pad _ (by omega)
    · exact b64Char_ne_pad _ (by omega)
  have hpad : ∀ c ∈ ['='], c = '=' := by decide
  have htake : ([b64Char (b6 / 4), b64Char (b6 % 4 * 16 + b7 / 16),
      b64Char (b7 % 16 * 4), '=']).takeWhile (· != '=')
      = [b64Char (b6 / 4), b64Char (b6 % 4 * 16 + b7 / 16), b64Char (b7 % 16 * 4)] :=
    takeWhile_data_pad _ _ hne hpad
  have hdrop : ([b64Char (b6 / 4), b64Char (b6 % 4 * 16 + b7 / 16),
      b64Char (b7 % 16 * 4), '=']).dropWhile (· != '=') = ['='] :=
    dropWhile_data_pad _ _ hne hpad
  simp only [b64DecodePad]
  rw [if_pos (show ('=' : Char) ∈ [b64Char (b6 / 4), b64Char (b6 % 4 * 16 + b7 / 16),
      b64Char (b7 % 16 * 4), '='] by simp)]
  rw [if_neg (show ¬(([] : List Char) ≠ []) by simp)]
  rw [hdrop]
  rw [if_pos (show (['='].all (· == '=')) = true from rfl)]
  rw [htake]
  simp only [mapCharVals, e8, e9, e10]
  simp only [b64DecGroup]
  rw [if_pos (show b7 % 16 * 4 % 4 = 0 by omega)]
  simp only [Except.ok.injEq, List.cons.injEq, and_true]
  omega

theorem b64_mid_chunks (b3 b4 b5 b6 b7 : Nat)
    (h3 : b3 < 256) (h4 : b4 < 256) (h5 : b5 < 256) (h6 : b6 < 256) (h7 : b7 < 256) :
    b64DecodePad [b64Char (b3 / 4), b64Char (b3 % 4 * 16 + b4 / 16),
      b64Char (b4 % 16 * 4 + b5 / 64), b64Char (b5 % 64),
      b64Char (b6 / 4), b64Char (b6 % 4 * 16 + b7 / 16), b64Char (b7 % 16 * 4), '=']
      = .ok [b3, b4, b5, b6, b7] := by
  have hfinal := b64_final_chunk b6 b7 h6 h7
  have e4 : b64CharVal (b64Char (b3 / 4)) = some (b3 / 4) :=
    b64CharVal_b64Char _ (by omega)
  have e5 : b64CharVal (b64Char (b3 % 4 * 16 + b4 / 16)) = some (b3 % 4 * 16 + b4 / 16) :=
    b64CharVal_b64Char _ (by omega)
  have e6 : b64CharVal (b64Char (b4 % 16 * 4 + b5 / 64)) = some (b4 % 16 * 4 + b5 / 64) :=
    b64CharVal_b64Char _ (by omega)
  have e7 : b64CharVal (b64Char (b5 % 64)) = some (b5 % 64) :=
    b64CharVal_b64Char _ (by omega)
  have hnotmem : ('=' : Char) ∉ [b64Char (b3 / 4), b64Char (b3 % 4 * 16 + b4 / 16),
      b64Char (b4 % 16 * 4 + b5 / 64), b64Char (b5 % 64)] := by
    intro hm
    simp only [List.mem_cons, List.not_mem_nil, or_false] at hm
    rcases hm with h | h | h | h
    · exact b64Char_ne_pad _ (by omega) h.symm
    · exact b64Char_ne_pad _ (by omega) h.symm
    · exact b64Char_ne_pad _ (by omega) h.symm
    · exact b64Char_ne_pad _ (by omega) h.symm
  rw [b64DecodePad]
  rw [if_neg hnotmem]
  rw [hfinal]
  simp only [mapCharVals, e4, e5, e6, e7]
  simp only [b64DecGroup]
  simp only [List.cons_append, List.nil_append]
  simp only [Except.ok.injEq, List.cons.injEq, and_true]
  omega

theorem b64_pad_roundtrip (b0 b1 b2 b3 b4 b5 b6 b7 : Nat)
    (h0 : b0 < 256) (h1 : b1 < 256) (h2 : b2 < 256) (h3 : b3 < 256)
    (h4 : b4 < 256) (h5 : b5 < 256) (h6 : b6 < 256) (h7 : b7 < 256) :
    b64DecodePad (b64EncodePad [b0, b1, b2, b3, b4, b5, b6, b7])
      = .ok [b0, b1, b2, b3, b4, b5, b6, b7] := by
  have hmid := b64_mid_chunks b3 b4 b5 b6 b7 h3 h4 h5 h6 h7
  have e0 : b64CharVal (b64Char (b0 / 4)) = some (b0 / 4) :=
    b64CharVal_b64Char _ (by omega)
  have e1 : b64CharVal (b64Char (b0 % 4 * 16 + b1 / 16)) = some (b0 % 4 * 16 + b1 / 16) :=
    b64CharVal_b64Char _ (by omega)
  have e2 : b64CharVal (b64Char (b1 % 16 * 4 + b2 / 64)) = some (b1 % 16 * 4 + b2 / 64) :=
    b64CharVal_b64Char _ (by omega)
  have e3 : b64CharVal (b64Char (b2 % 64)) = some (b2 % 64) :=
    b64CharVal_b64Char _ (by omega)
  have hnotmem : ('=' : Char) ∉ [b64Char (b0 / 4), b64Char (b0 % 4 * 16 + b1 / 16),
      b64Char (b1 % 16 * 4 + b2 / 64), b64Char (b2 % 64)] := by
    intro hm
    simp only [List.mem_cons, List.not_mem_nil, or_false] at hm
    rcases hm with h | h | h | h
    · exact b64Char_ne_pad _ (by omega) h.symm
    · exact b64Char_ne_pad _ (by omega) h.symm
    · exact b64Char_ne_pad _ (by omega) h.symm
    · exact b64Char_ne_pad _ (by omega) h.symm
  have henc : b64EncodePad [b0, b1, b2, b3, b4, b5, b6, b7]
      = [b64Char (b0 / 4), b64Char (b0 % 4 * 16 + b1 / 16),
         b64Char (b1 % 16 * 4 + b2 / 64), b64Char (b2 % 64),
         b64Char (b3 / 4), b64Char (b3 % 4 * 16 + b4 / 16),
         b64Char (b4 % 16 * 4 + b5 / 64), b64Char (b5 % 64),
         b64Char (b6 / 4), b64Char (b6 % 4 * 16 + b7 / 16), b64Char (b7 % 16 * 4),
         '='] := by
    unfold b64EncodePad
    rw [show ([b0, b1, b2, b3, b4, b5, b6, b7] : List Nat).length = 8 from rfl]
    rw [show List.replicate (b64PadLen (8 % 3)) '=' = ['='] from rfl]
    rw [show b64EncChars [b0, b1, b2, b3, b4, b5, b6, b7]
        = [b64Char (b0 / 4), b64Char (b0 % 4 * 16 + b1 / 16),
           b64Char (b1 % 16 * 4 + b2 / 64), b64Char (b2 % 64),
           b64Char (b3 / 4), b64Char (b3 % 4 * 16 + b4 / 16),
           b64Char (b4 % 16 * 4 + b5 / 64), b64Char (b5 % 64),
           b64Char (b6 / 4), b64Char (b6 % 4 * 16 + b7 / 16), b64Char (b7 % 16 * 4)]
        from rfl]
    rfl
  rw [henc]
  rw [b64DecodePad]
  rw [if_neg hnotmem]
  rw [hmid]
  simp only [mapCharVals, e0, e1, e2, e3]
  simp only [b64DecGroup]
  simp only [List.cons_append, List.nil_append]
  simp only [Except.ok.injEq, List.cons.injEq, and_true]
  omega

theorem b64_nopad_roundtrip (b0 b1 b2 b3 b4 b5 b6 b7 : Nat)
    (h0 : b0 < 256) (h1 : b1 < 256) (h2 : b2 < 256) (h3 : b3 < 256)
    (h4 : b4 < 256) (h5 : b5 < 256) (h6 : b6 < 256) (h7 : b7 < 256) :
    b64DecodeNoPad (b64EncChars [b0, b1, b2, b3, b4, b5, b6, b7])
      = .ok [b0, b1, b2, b3, b4, b5, b6, b7] := by
  have e0 : b64CharVal (b64Char (b0 / 4)) = some (b0 / 4) :=
    b64CharVal_b64Char _ (by omega)
  have e1 : b64CharVal (b64Char (b0 % 4 * 16 + b1 / 16)) = some (b0 % 4 * 16 + b1 / 16) :=
    b64CharVal_b64Char _ (by omega)
  have e2 : b64CharVal (b64Char (b1 % 16 * 4 + b2 / 64)) = some (b1 % 16 * 4 + b2 / 64) :=
    b64CharVal_b64Char _ (by omega)
  have e3 : b64CharVal (b64Char (b2 % 64)) = some (b2 % 64) :=
    b64CharVal_b64Char _ (by omega)
  have e4 : b64CharVal (b64Char (b3 / 4)) = some (b3 / 4) :=
    b64CharVal_b64Char _ (by omega)
  have e5 : b64CharVal (b64Char (b3 % 4 * 16 + b4 / 16)) = some (b3 % 4 * 16 + b4 / 16) :=
    b64CharVal_b64Char _ (by omega)
  have e6 : b64CharVal (b64Char (b4 % 16 * 4 + b5 / 64)) = some (b4 % 16 * 4 + b5 / 64) :=
    b64CharVal_b64Char _ (by omega)
  have e7 : b64CharVal (b64Char (b5 % 64)) = some (b5 % 64) :=
    b64CharVal_b64Char _ (by omega)
  have e8 : b64CharVal (b64Char (b6 / 4)) = some (b6 / 4) :=
    b64CharVal_b64Char _ (by omega)
  have e9 : b64CharVal (b64Char (b6 % 4 * 16 + b7 / 16)) = some (b6 % 4 * 16 + b7 / 16) :=
    b64CharVal_b64Char _ (by omega)
  have e10 : b64CharVal (b64Char (b7 % 16 * 4)) = some (b7 % 16 * 4) :=
    b64CharVal_b64Char _ (by omega)
  have hinner : b64DecodeNoPad [b64Char (b6 / 4), b64Char (b6 % 4 * 16 + b7 / 16),
      b64Char (b7 % 16 * 4)] = .ok [b6, b7] := by
    rw [b64DecodeNoPad]
    unfold decSmall
    simp only [mapCharVals, e8, e9, e10]
    simp only [b64DecGroup]
    rw [if_pos (show b7 % 16 * 4 % 4 = 0 by omega)]
    simp only [Except.ok.injEq, List.cons.injEq, and_true]
    omega
  have hmid : b64DecodeNoPad [b64Char (b3 / 4), b64Char (b3 % 4 * 16 + b4 / 16),
      b64Char (b4 % 16 * 4 + b5 / 64), b64Char (b5 % 64),
      b64Char (b6 / 4), b64Char (b6 % 4 * 16 + b7 / 16), b64Char (b7 % 16 * 4)]
      = .ok [b3, b4, b5, b6, b7] := by
    rw [b64DecodeNoPad]
    rw [hinner]
    simp only [mapCharVals, e4, e5, e6, e7]
    simp only [b64DecGroup]
    simp only [List.cons_append, List.nil_append]
    simp only [Except.ok.injEq, List.cons.injEq, and_true]
    omega
  rw [show b64EncChars [b0, b1, b2, b3, b4, b5, b6, b7]
      = [b64Char (b0 / 4), b64Char (b0 % 4 * 16 + b1 / 16),
         b64Char (b1 % 16 * 4 + b2 / 64), b64Char (b2 % 64),
         b64Char (b3 / 4), b64Char (b3 % 4 * 16 + b4 / 16),
         b64Char (b4 % 16 * 4 + b5 / 64), b64Char (b5 % 64),
         b64Char (b6 / 4), b64Char (b6 % 4 * 16 + b7 / 16), b64Char (b7 % 16 * 4)]
      from rfl]
  rw [b64DecodeNoPad]
  rw [hmid]
  simp only [mapCharVals, e0, e1, e2, e3]
  simp only [b64DecGroup]
  simp only [List.cons_append, List.nil_append]
  simp only [Except.ok.injEq, List.cons.injEq, and_true]
  omega

theorem natDigitsBEAux_zero (base fuel : Nat) : natDigitsBEAux base fuel 0 = [] := by
  cases fuel <;> rfl

theorem natDigitsBEAux_stable (base : Nat) (hb : 2 ≤ base) :
    ∀ fuel n, n ≤ fuel → natDigitsBEAux base fuel n = natDigitsBEAux base n n := by
  intro fuel
  induction fuel using Nat.strong_induction_on with
  | _ fuel ih =>
    intro n hle
    rcases n with _ | m
    · rw [natDigitsBEAux_zero, natDigitsBEAux_zero]
    · rcases fuel with _ | f
      · omega
      · have h1 : natDigitsBEAux base (f + 1) (m + 1)
            = natDigitsBEAux base f ((m + 1) / base) ++ [(m + 1) % base] := rfl
        have h2 : natDigitsBEAux base (m + 1) (m + 1)
            = natDigitsBEAux base m ((m + 1) / base) ++ [(m + 1) % base] := rfl
        have hdiv : (m + 1) / base ≤ m := by
          have := Nat.div_lt_self (show 0 < m + 1 by omega) hb
          omega
        rw [h1, h2, ih f (by omega) ((m + 1) / base) (by omega),
          ih m (by omega) ((m + 1) / base) (by omega)]

theorem natDigitsBE_succ (base n : Nat) (hb : 2 ≤ base) (hn : 0 < n) :
    natDigitsBE base n = natDigitsBE base (n / base) ++ [n % base] := by
  rcases n with _ | m
  · omega
  · show natDigitsBEAux base (m + 1) (m + 1) = _
    have h2 : natDigitsBEAux base (m + 1) (m + 1)
        = natDigitsBEAux base m ((m + 1) / base) ++ [(m + 1) % base] := rfl
    have hdiv : (m + 1) / base ≤ m := by
      have := Nat.div_lt_self (show 0 < m + 1 by omega) hb
      omega
    rw [h2, natDigitsBEAux_stable base hb m ((m + 1) / base) hdiv]
    rfl

theorem natDigitsBE_lt (base : Nat) (hb : 2 ≤ base) :
    ∀ n, ∀ d ∈ natDigitsBE base n, d < base := by
  intro n
  induction n using Nat.strong_induction_on with
  | _ n ih =>
    intro d hd
    rcases Nat.eq_zero_or_pos n with rfl | hn
    · simp [natDigitsBE, natDigitsBEAux] at hd
    · rw [natDigitsBE_succ base n hb hn] at hd
      rcases List.mem_append.1 hd with h | h
      · exact ih (n / base) (Nat.div_lt_self hn hb) d h
      · simp only [List.mem_singleton] at h
        subst h
        exact Nat.mod_lt _ (by omega)

theorem digitsVal_append_singleton (base : Nat) (l : List Nat) (d : Nat) :
    digitsVal base (l ++ [d]) = digitsVal base l * base + d := by
  unfold digitsVal
  rw [List.foldl_append]
  rfl

theorem digitsVal_natDigitsBE (base : Nat) (hb : 2 ≤ base) :
    ∀ n, digitsVal base (natDigitsBE base n) = n := by
  intro n
  induction n using Nat.strong_induction_on with
  | _ n ih =>
    rcases Nat.eq_zero_or_pos n with rfl | hn
    · rfl
    · rw [natDigitsBE_succ base n hb hn, digitsVal_append_singleton,
        ih (n / base) (Nat.div_lt_self hn hb)]
      calc n / base * base + n % base = base * (n / base) + n % base := by ring
        _ = n := Nat.div_add_mod n base

theorem natDigitsBE_head_pos (base : Nat) (hb : 2 ≤ base) :
    ∀ n, 0 < n → ∃ d ds, natDigitsBE base n = d :: ds ∧ 0 < d := by
  intro n
  induction n using Nat.strong_induction_on with
  | _ n ih =>
    intro hn
    rw [natDigitsBE_succ base n hb hn]
    rcases Nat.eq_zero_or_pos (n / base) with hz | hpos
    · rw [hz]
      refine ⟨n % base, [], rfl, ?_⟩
      have : n < base := (Nat.div_eq_zero_iff (by omega)).1 hz
      rw [Nat.mod_eq_of_lt this]
      exact hn
    · obtain ⟨d, ds, hd, hdpos⟩ := ih (n / base) (Nat.div_lt_self hn hb) hpos
      exact ⟨d, ds ++ [n % base], by rw [hd]; rfl, hdpos⟩

theorem beBytesToNat_pos (l : List Nat) (d : Nat) (hd : l.head? = some d)
    (hpos : 0 < d) : 0 < beBytesToNat l := by
  cases l with
  | nil => cases hd
  | cons a t =>
    have ha : a = d := by
      simpa using hd
    subst ha
    have h1 : 0 < a * 256 ^ t.length :=
      Nat.mul_pos hpos (Nat.pos_pow_of_pos _ (by omega))
    calc 0 < a * 256 ^ t.length := h1
      _ ≤ a * 256 ^ t.length + beBytesToNat t := Nat.le_add_right _ _

theorem natDigitsBE_beBytesToNat (l : List Nat) (hlt : ∀ b ∈ l, b < 256)
    (hh : ∀ d, l.head? = some d → 0 < d) :
    natDigitsBE 256 (beBytesToNat l) = l := by
  induction l using List.reverseRecOn with
  | nil => rfl
  | append_singleton t b ih =>
    rw [beBytesToNat_append_singleton]
    rcases t with _ | ⟨a, t'⟩
    · have hb : b < 256 := hlt b (by simp)
      have hbpos : 0 < b := hh b (by simp)
      have hz : beBytesToNat ([] : List Nat) * 256 + b = b := by
        simp [beBytesToNat]
      rw [hz, natDigitsBE_succ 256 b (by norm_num) hbpos,
        Nat.div_eq_of_lt hb, Nat.mod_eq_of_lt hb]
      rfl
    · have hapos : 0 < a := hh a (by simp)
      have hvpos : 0 < beBytesToNat (a :: t') := beBytesToNat_pos _ a rfl hapos
      have hb : b < 256 := hlt b (by simp)
      have hn : 0 < beBytesToNat (a :: t') * 256 + b := by omega
      rw [natDigitsBE_succ 256 _ (by norm_num) hn]
      have hdiv : (beBytesToNat (a :: t') * 256 + b) / 256 = beBytesToNat (a :: t') := by
        omega
      have hmod : (beBytesToNat (a :: t') * 256 + b) % 256 = b := by omega
      rw [hdiv, hmod]
      rw [ih (fun x hx => hlt x (by
          rcases List.mem_cons.1 hx with rfl | h'
          · exact List.mem_cons_self _ _
          · exact List.mem_cons_of_mem _ (List.mem_append_left _ h')))
        (fun d hd => by
          simp only [List.head?_cons, Option.some.injEq] at hd
          subst hd
          exact hapos)]

theorem mapCharVals_append (f : Char → Option Nat) (l1 l2 : List Char)
    (v1 v2 : List Nat) (h1 : mapCharVals f l1 = some v1)
    (h2 : mapCharVals f l2 = some v2) :
    mapCharVals f (l1 ++ l2) = some (v1 ++ v2) := by
  induction l1 generalizing v1 with
  | nil =>
    have : v1 = [] := by
      simpa [mapCharVals] using h1.symm
    subst this
    simpa using h2
  | cons c t ih =>
    cases hfc : f c with
    | none =>
      simp only [mapCharVals, hfc] at h1
      exact Option.noConfusion h1
    | some v =>
      cases hmt : mapCharVals f t with
      | none =>
        simp only [mapCharVals, hfc, hmt] at h1
        exact Option.noConfusion h1
      | some vs =>
        simp only [mapCharVals, hfc, hmt, Option.some.injEq] at h1
        subst h1
        show mapCharVals f (c :: (t ++ l2)) = _
        simp only [mapCharVals, hfc, ih vs hmt]
        rfl

theorem b58CharVal_one : b58CharVal '1' = some 0 := by decide

theorem b58CharVal_b58Char (d : Nat) (h : d < 58) : b58CharVal (b58Char d) = some d := by
  revert d
  decide

theorem b58Char_ne_one (d : Nat) (h2 : d < 58) (h1 : 0 < d) : b58Char d ≠ '1' := by
  revert d
  decide

theorem mapCharVals_replicate_one (z : Nat) :
    mapCharVals b58CharVal (List.replicate z '1') = some (List.replicate z 0) := by
  induction z with
  | zero => rfl
  | succ z ih =>
    show mapCharVals b58CharVal ('1' :: List.replicate z '1') = _
    simp only [mapCharVals, b58CharVal_one, ih]
    rfl

theorem mapCharVals_map_b58Char (ds : List Nat) (h : ∀ d ∈ ds, d < 58) :
    mapCharVals b58CharVal (ds.map b58Char) = some ds := by
  induction ds with
  | nil => rfl
  | cons d t ih =>
    show mapCharVals b58CharVal (b58Char d :: t.map b58Char) = _
    simp only [mapCharVals, b58CharVal_b58Char d (h d (by simp)),
      ih (fun x hx => h x (by simp [hx]))]

theorem takeWhile_one_replicate_append (z : Nat) (cs : List Char)
    (h : ∀ c, cs.head? = some c → (c == '1') = false) :
    (List.replicate z '1' ++ cs).takeWhile (· == '1') = List.replicate z '1' := by
  induction z with
  | zero =>
    cases cs with
    | nil => rfl
    | cons c t =>
      have hc := h c rfl
      show List.takeWhile (· == '1') (c :: t) = []
      simp [List.takeWhile_cons, hc]
  | succ z ih =>
    show List.takeWhile (· == '1') ('1' :: (List.replicate z '1' ++ cs))
      = '1' :: List.replicate z '1'
    simp only [List.takeWhile_cons]
    rw [if_pos (by rfl)]
    rw [ih]

theorem digitsVal_replicate_zero_append (z : Nat) (ds : List Nat) :
    digitsVal 58 (List.replicate z 0 ++ ds) = digitsVal 58 ds := by
  induction z with
  | zero => rfl
  | succ z ih => exact ih

theorem beBytesToNat_replicate_zero_append (z : Nat) (l : List Nat) :
    beBytesToNat (List.replicate z 0 ++ l) = beBytesToNat l := by
  induction z with
  | zero => rfl
  | succ z ih =>
    show beBytesToNat (0 :: (List.replicate z 0 ++ l)) = _
    simp only [beBytesToNat, ih, Nat.zero_mul, Nat.zero_add]

theorem takeWhile_zero_replicate (bs : List Nat) :
    bs.takeWhile (· == 0) = List.replicate (bs.takeWhile (· == 0)).length 0 := by
  apply List.eq_replicate_iff.2
  refine ⟨rfl, ?_⟩
  intro b hb
  have := List.mem_takeWhile_imp hb
  exact eq_of_beq this

theorem dropWhile_head_not_zero (l : List Nat) :
    ∀ d t, l.dropWhile (· == 0) = d :: t → 0 < d := by
  induction l with
  | nil =>
    intro d t h
    rw [List.dropWhile_nil] at h
    exact List.noConfusion h
  | cons a l' ih =>
    intro d t h
    rw [List.dropWhile_cons] at h
    by_cases ha : (a == 0) = true
    · rw [if_pos ha] at h
      exact ih d t h
    · rw [if_neg ha] at h
      injection h with h1 h2
      subst h1
      have : a ≠ 0 := fun hz => ha (by rw [hz]; rfl)
      omega

theorem mem_dropWhile_zero (l : List Nat) : ∀ x ∈ l.dropWhile (· == 0), x ∈ l :=
  fun _ hx => (List.dropWhile_sublist (· == 0)).subset hx

theorem b58_roundtrip (bs : List Nat) (hlt : ∀ b ∈ bs, b < 256) :
    b58DecodeChars (b58EncodeBytes bs) = .ok bs := by
  have hb58 : ∀ d ∈ natDigitsBE 58 (beBytesToNat bs), d < 58 :=
    fun d hd => natDigitsBE_lt 58 (by norm_num) _ d hd
  have hmv : mapCharVals b58CharVal
      (List.replicate (bs.takeWhile (· == 0)).length '1'
        ++ (natDigitsBE 58 (beBytesToNat bs)).map b58Char)
      = some (List.replicate (bs.takeWhile (· == 0)).length 0
        ++ natDigitsBE 58 (beBytesToNat bs)) :=
    mapCharVals_append _ _ _ _ _ (mapCharVals_replicate_one _)
      (mapCharVals_map_b58Char _ hb58)
  have hhead : ∀ c, ((natDigitsBE 58 (beBytesToNat bs)).map b58Char).head? = some c
      → (c == '1') = false := by
    intro c hc
    rcases Nat.eq_zero_or_pos (beBytesToNat bs) with hz | hpos
    · rw [hz] at hc
      rw [show natDigitsBE 58 0 = [] from rfl] at hc
      simp only [List.map_nil, List.head?_nil] at hc
      exact Option.noConfusion hc
    · obtain ⟨d, ds, hD, hdpos⟩ := natDigitsBE_head_pos 58 (by norm_num) _ hpos
      have hdlt : d < 58 := hb58 d (by rw [hD]; simp)
      rw [hD] at hc
      simp only [List.map_cons, List.head?_cons, Option.some.injEq] at hc
      subst hc
      exact beq_eq_false_iff_ne.2 (b58Char_ne_one d hdlt hdpos)
  have hsplit : List.replicate (bs.takeWhile (· == 0)).length 0
      ++ bs.dropWhile (· == 0) = bs := by
    conv_rhs => rw [← List.takeWhile_append_dropWhile (· == 0) bs]
    rw [← takeWhile_zero_replicate]
  have hdvals : ∀ x ∈ bs.dropWhile (· == 0), x < 256 :=
    fun x hx => hlt x (mem_dropWhile_zero bs x hx)
  have hdhead : ∀ d, (bs.dropWhile (· == 0)).head? = some d → 0 < d := by
    intro d hd
    cases hdw : bs.dropWhile (· == 0) with
    | nil =>
      rw [hdw] at hd
      cases hd
    | cons a t =>
      rw [hdw] at hd
      simp only [List.head?_cons, Option.some.injEq] at hd
      subst hd
      exact dropWhile_head_not_zero bs a t hdw
  have hN : beBytesToNat bs = beBytesToNat (bs.dropWhile (· == 0)) := by
    conv_lhs => rw [← hsplit]
    exact beBytesToNat_replicate_zero_append _ _
  have hback : natDigitsBE 256 (beBytesToNat bs) = bs.dropWhile (· == 0) := by
    rw [hN]
    exact natDigitsBE_beBytesToNat _ hdvals hdhead
  unfold b58EncodeBytes b58DecodeChars
  rw [hmv]
  show Except.ok (List.replicate
      ((List.replicate (bs.takeWhile (· == 0)).length '1'
        ++ (natDigitsBE 58 (beBytesToNat bs)).map b58Char).takeWhile (· == '1')).length 0
      ++ natDigitsBE 256 (digitsVal 58
        (List.replicate (bs.takeWhile (· == 0)).length 0
          ++ natDigitsBE 58 (beBytesToNat bs)))) = Except.ok bs
  rw [takeWhile_one_replicate_append _ _ hhead, List.length_replicate]
  rw [digitsVal_replicate_zero_append, digitsVal_natDigitsBE 58 (by norm_num)]
  rw [hback, hsplit]

/-- Claim C2: for every identifier and each supported encoding (base16 with
its hex alias, padded and unpadded base32, base58, padded and unpadded
base64), decoding the string produced by encoding the identifier returns
`Ok` of the same identifier. -/
theorem encode_decode_roundtrip (u : Uid)
    (h1 : -(2 ^ 63) ≤ u.val) (h2 : u.val < 2 ^ 63) :
    Uid.from_base16 u.to_base16 = .ok u
    ∧ Uid.from_hex u.to_hex = .ok u
    ∧ Uid.from_base32 u.to_base32 = .ok u
    ∧ Uid.from_unpadded_base32 u.to_unpadded_base32 = .ok u
    ∧ Uid.from_base58 u.to_base58 = .ok u
    ∧ Uid.from_base64 u.to_base64 = .ok u
    ∧ Uid.from_unpadded_base64 u.to_unpadded_base64 = .ok u := by
  obtain ⟨b0, b1, b2, b3, b4, b5, b6, b7, hbs⟩ :=
    list_len8_destruct u.toBeBytes (toBeBytes_length u)
  have hblt := toBeBytes_bytes_lt u
  have hb0 : b0 < 256 := hblt b0 (by rw [hbs]; simp)
  have hb1 : b1 < 256 := hblt b1 (by rw [hbs]; simp)
  have hb2 : b2 < 256 := hblt b2 (by rw [hbs]; simp)
  have hb3 : b3 < 256 := hblt b3 (by rw [hbs]; simp)
  have hb4 : b4 < 256 := hblt b4 (by rw [hbs]; simp)
  have hb5 : b5 < 256 := hblt b5 (by rw [hbs]; simp)
  have hb6 : b6 < 256 := hblt b6 (by rw [hbs]; simp)
  have hb7 : b7 < 256 := hblt b7 (by rw [hbs]; simp)
  have htf : Uid.tryFrom u.toBeBytes = .ok u := tryFrom_toBeBytes h1 h2
  refine ⟨from_to_base16_ok h1 h2, from_to_base16_ok h1 h2, ?_, ?_, ?_, ?_, ?_⟩
  · unfold Uid.from_base32 Uid.to_base32
    rw [show (String.mk (b32EncodePad u.toBeBytes)).toList
        = b32EncodePad u.toBeBytes from rfl]
    rw [hbs, b32_pad_roundtrip b0 b1 b2 b3 b4 b5 b6 b7 hb0 hb1 hb2 hb3 hb4 hb5 hb6 hb7]
    show Uid.tryFrom [b0, b1, b2, b3, b4, b5, b6, b7] = .ok u
    rw [← hbs]
    exact htf
  · unfold Uid.from_unpadded_base32 Uid.to_unpadded_base32
    rw [show (String.mk (b32EncChars u.toBeBytes)).toList
        = b32EncChars u.toBeBytes from rfl]
    rw [hbs, b32_nopad_roundtrip b0 b1 b2 b3 b4 b5 b6 b7 hb0 hb1 hb2 hb3 hb4 hb5 hb6 hb7]
    show Uid.tryFrom [b0, b1, b2, b3, b4, b5, b6, b7] = .ok u
    rw [← hbs]
    exact htf
  · unfold Uid.from_base58 Uid.to_base58
    rw [show (String.mk (b58EncodeBytes u.toBeBytes)).toList
        = b58EncodeBytes u.toBeBytes from rfl]
    rw [b58_roundtrip u.toBeBytes (toBeBytes_bytes_lt u)]
    exact htf
  · unfold Uid.from_base64 Uid.to_base64
    rw [show (String.mk (b64EncodePad u.toBeBytes)).toList
        = b64EncodePad u.toBeBytes from rfl]
    rw [hbs, b64_pad_roundtrip b0 b1 b2 b3 b4 b5 b6 b7 hb0 hb1 hb2 hb3 hb4 hb5 hb6 hb7]
    show Uid.tryFrom [b0, b1, b2, b3, b4, b5, b6, b7] = .ok u
    rw [← hbs]
    exact htf
  · unfold Uid.from_unpadded_base64 Uid.to_unpadded_base64
    rw [show (String.mk (b64EncChars u.toBeBytes)).toList
        = b64EncChars u.toBeBytes from rfl]
    rw [hbs, b64_nopad_roundtrip b0 b1 b2 b3 b4 b5 b6 b7 hb0 hb1 hb2 hb3 hb4 hb5 hb6 hb7]
    show Uid.tryFrom [b0, b1, b2, b3, b4, b5, b6, b7] = .ok u
    rw [← hbs]
    exact htf

/-- Witness for C2 at the zero identifier. -/
theorem encode_decode_roundtrip_witness :
    Uid.from_base16 (Uid.mk 0).to_base16 = .ok ⟨0⟩
    ∧ Uid.from_hex (Uid.mk 0).to_hex = .ok ⟨0⟩
    ∧ Uid.from_base32 (Uid.mk 0).to_base32 = .ok ⟨0⟩
    ∧ Uid.from_unpadded_base32 (Uid.mk 0).to_unpadded_base32 = .ok ⟨0⟩
    ∧ Uid.from_base58 (Uid.mk 0).to_base58 = .ok ⟨0⟩
    ∧ Uid.from_base64 (Uid.mk 0).to_base64 = .ok ⟨0⟩
    ∧ Uid.from_unpadded_base64 (Uid.mk 0).to_unpadded_base64 = .ok ⟨0⟩ :=
  encode_decode_roundtrip ⟨0⟩ (by decide) (by decide)

theorem funnel_wrong_length (e : Except String (List Nat)) (h : ¬ decodesToLen8 e) :
    ∃ msg, (match e with
      | .error e' => Except.error (Error.Decoding e')
      | .ok bs => Uid.tryFrom bs) = Except.error (Error.Decoding msg) := by
  cases e with
  | error e' => exact ⟨e', rfl⟩
  | ok bs =>
    have hne : bs.length ≠ 8 := fun h8 => h h8
    show ∃ msg, Uid.tryFrom bs = _
    unfold Uid.tryFrom
    rw [if_pos hne]
    exact ⟨_, rfl⟩

/-- Claim C1: every decode function (`from_base16`/`from_hex`,
`from_base32`, `from_unpadded_base32`, `from_base58`, `from_base64`,
`from_unpadded_base64`) returns a `Decoding` error, never an identifier,
on any input whose decoded byte count is not exactly 8 (for base16 this
means any input other than 16 hex characters). -/
theorem decode_wrong_length_errors :
    (∀ s : String, s.toList.length ≠ 16
      → ∃ msg, Uid.from_base16 s = .error (.Decoding msg))
    ∧ (∀ s : String, s.toList.length ≠ 16
      → ∃ msg, Uid.from_hex s = .error (.Decoding msg))
    ∧ (∀ s : String, ¬ decodesToLen8 (b32DecodePad s.toList)
      → ∃ msg, Uid.from_base32 s = .error (.Decoding msg))
    ∧ (∀ s : String, ¬ decodesToLen8 (b32DecodeNoPad s.toList)
      → ∃ msg, Uid.from_unpadded_base32 s = .error (.Decoding msg))
    ∧ (∀ s : String, ¬ decodesToLen8 (b58DecodeChars s.toList)
      → ∃ msg, Uid.from_base58 s = .error (.Decoding msg))
    ∧ (∀ s : String, ¬ decodesToLen8 (b64DecodePad s.toList)
      → ∃ msg, Uid.from_base64 s = .error (.Decoding msg))
    ∧ (∀ s : String, ¬ decodesToLen8 (b64DecodeNoPad s.toList)
      → ∃ msg, Uid.from_unpadded_base64 s = .error (.Decoding msg)) := by
  have hhex : ∀ s : String, s.toList.length ≠ 16
      → ∃ msg, Uid.from_base16 s = .error (.Decoding msg) := by
    intro s hlen
    unfold Uid.from_base16 hex_decode
    rw [if_pos (show s.toList.length ≠ 2 * 8 by omega)]
    exact ⟨"Invalid hex length", rfl⟩
  refine ⟨hhex, hhex, ?_, ?_, ?_, ?_, ?_⟩
  · intro s hdec
    exact funnel_wrong_length (b32DecodePad s.toList) hdec
  · intro s hdec
    exact funnel_wrong_length (b32DecodeNoPad s.toList) hdec
  · intro s hdec
    exact funnel_wrong_length (b58DecodeChars s.toList) hdec
  · intro s hdec
    exact funnel_wrong_length (b64DecodePad s.toList) hdec
  · intro s hdec
    exact funnel_wrong_length (b64DecodeNoPad s.toList) hdec

/-- Witness for C1: short valid payloads of each encoding (decoding to 1
byte) and a 2-character hex string are all rejected. -/
theorem decode_wrong_length_errors_witness :
    (∃ msg, Uid.from_base16 "00" = .error (.Decoding msg))
    ∧ (∃ msg, Uid.from_hex "00" = .error (.Decoding msg))
    ∧ (∃ msg, Uid.from_base32 "ME======" = .error (.Decoding msg))
    ∧ (∃ msg, Uid.from_unpadded_base32 "ME" = .error (.Decoding msg))
    ∧ (∃ msg, Uid.from_base58 "2" = .error (.Decoding msg))
    ∧ (∃ msg, Uid.from_base64 "AA==" = .error (.Decoding msg))
    ∧ (∃ msg, Uid.from_unpadded_base64 "AA" = .error (.Decoding msg)) := by
  obtain ⟨p1, p2, p3, p4, p5, p6, p7⟩ := decode_wrong_length_errors
  exact ⟨p1 "00" (by decide), p2 "00" (by decide), p3 "ME======" (by decide),
    p4 "ME" (by decide), p5 "2" (by decide), p6 "AA==" (by decide),
    p7 "AA" (by decide)⟩
